import Mathlib

/-!
Verification development for the stationary wavelet decomposition engine of
`radiomics/imageoperations.py` (`_swt3`, `_decompose_i`, `_decompose_j`,
`_decompose_k`, `getWaveletImage`).

Modelling conventions:
* A numpy `ndarray` is modelled by its shape together with its flat data
  buffer in C (row-major) order: a 3D array of shape `(dk, dj, di)` stores the
  sample at index `(k, j, i)` at flat position `(k*dj + j)*di + i`.
* Sample values live in an arbitrary type `α` with a zero (the fill value used
  by `ndarray.resize`); metadata (spacing/origin/direction, copied verbatim by
  `sitk.Image.CopyInformation`) lives in an arbitrary type `μ` and the
  pass-through keyword options in an arbitrary type `κ`.
* The 1D stationary wavelet primitive `pywt.swt(x, wavelet, level=1,
  start_level=0)[0] = (cA, cD)` is an external collaborator; it is modelled
  from the spec as an abstract parameter `P : List α → List α × List α`
  returning the `(approximation, detail)` pair for one line, assumed (where a
  claim needs it) to preserve the line length, as the spec's boundary contract
  states.
-/

set_option linter.unusedSectionVars false
set_option linter.unusedVariables false

namespace Radiomics

/-- A numpy array paired with the spatial metadata of the SimpleITK image it
was taken from: `shape` is the numpy shape tuple, `flat` the C-order data
buffer, `meta` the (opaque) spacing/origin/direction information. -/
structure Image (α : Type) (μ : Type) where
  shape : List ℕ
  flat : List α
  meta : μ
  deriving DecidableEq, Repr

variable {α : Type} [Zero α] {μ : Type} {κ : Type}

/-- Read the sample of a flat C-order buffer of a `(dk, dj, di)`-shaped 3D
array at index `(k, j, i)`; out-of-range reads give `0` (they never occur on
well-formed data). -/
def at3 (dj di : ℕ) (l : List α) (k j i : ℕ) : α :=
  l.getD ((k * dj + j) * di + i) 0

/-- Build the flat C-order buffer of a `(dk, dj, di)`-shaped 3D array from an
index function.  This is how the reassembled/transposed arrays produced by
`numpy.transpose`, `reshape` and `.T` are rendered into flat form. -/
def mk3 (dk dj di : ℕ) (f : ℕ → ℕ → ℕ → α) : List α :=
  (List.range (dk * dj * di)).map (fun t => f (t / di / dj) (t / di % dj) (t % di))

/-- The list of consecutive lines of length `m` of a flat buffer, in C order:
this is what `itertools.chain.from_iterable` yields when iterating a numpy
array whose last axis has extent `m`. -/
def toLines (m : ℕ) (l : List α) : List (List α) :=
  (List.range (l.length / m)).map (fun q => (l.drop (q * m)).take m)

/-- `ndarray.resize(newshape, refcheck=False)` on a C-contiguous array: the
flat buffer is truncated or zero-extended at its end to the new total size. -/
def ndResize (l : List α) (n : ℕ) : List α :=
  l.take n ++ List.replicate (n - l.length) 0

/-- `numpy.resize(a, newshape)`: the flat buffer is cycled (repeated) or
truncated to the new total size. -/
def npResize (l : List α) (n : ℕ) : List α :=
  (List.range n).map (fun t => l.getD (t % l.length) 0)

/-- `dim + 1 if dim % 2 != 0 else dim`: the per-dimension adjustment applied
by `_swt3` to make every dimension even. -/
def adjustDim (d : ℕ) : ℕ :=
  if d % 2 ≠ 0 then d + 1 else d

/-- Embedding of `_decompose_i`: apply the 1D primitive `P` to every line
along the last (i) axis — `chain.from_iterable(data)` — collecting the detail
coefficients into `H` and the approximation coefficients into `L`
(`numpy.hstack(...).reshape(data.shape)` concatenates the processed lines back
in C order, which leaves the flat buffer equal to the concatenation). -/
def decompose_i (P : List α → List α × List α) (ai : ℕ) (d : List α) :
    List α × List α :=
  let lines := toLines ai d
  ((lines.map (fun r => (P r).2)).flatten, (lines.map (fun r => (P r).1)).flatten)

/-- Embedding of `_decompose_j`: `numpy.transpose(data, (0, 2, 1))` re-lays
the buffer as shape `(dk, di, dj)`, every line along the j axis is processed
by `P`, and the results are reshaped to `(s0, s2, s1)` and transposed back by
`.transpose((0, 2, 1))`. -/
def decompose_j (P : List α → List α × List α) (ak aj ai : ℕ) (d : List α) :
    List α × List α :=
  let t := mk3 ak ai aj (fun k i j => at3 aj ai d k j i)
  let lines := toLines aj t
  let h := (lines.map (fun r => (P r).2)).flatten
  let l := (lines.map (fun r => (P r).1)).flatten
  (mk3 ak aj ai (fun k j i => at3 ai aj h k i j),
   mk3 ak aj ai (fun k j i => at3 ai aj l k i j))

/-- Embedding of `_decompose_k`: `numpy.transpose(data, (2, 1, 0))` re-lays
the buffer as shape `(di, dj, dk)`, every line along the k axis is processed
by `P`, and `numpy.split(numpy.vstack(...), di)` followed by `.T` reassembles
the processed lines into shape `(dk, dj, di)`. -/
def decompose_k (P : List α → List α × List α) (ak aj ai : ℕ) (d : List α) :
    List α × List α :=
  let t := mk3 ai aj ak (fun i j k => at3 aj ai d k j i)
  let lines := toLines ak t
  let h := (lines.map (fun r => (P r).2)).flatten
  let l := (lines.map (fun r => (P r).1)).flatten
  (mk3 ak aj ai (fun k j i => at3 aj ak h i j k),
   mk3 ak aj ai (fun k j i => at3 aj ak l i j k))

/-- One warm-up pass of `_swt3` (`for i in range(0, start_level)`): decompose
along i, keep the approximation, decompose it along j, keep the approximation,
decompose it along k, and keep only the `LLL` volume as the new working
volume. -/
def swtStepLLL (P : List α → List α × List α) (ak aj ai : ℕ) (d : List α) :
    List α :=
  (decompose_k P ak aj ai ((decompose_j P ak aj ai ((decompose_i P ai d).2)).2)).2

/-- One emission pass of `_swt3`: the full eight-octant separable
decomposition.  Returns the `dec` dictionary (in Python insertion order:
HHH, HHL, HLH, HLL, LHH, LHL, LLH — raw, untrimmed flat buffers of the
padded working shape) together with the `LLL` volume that becomes the next
working volume. -/
def swtDec (P : List α → List α × List α) (ak aj ai : ℕ) (d : List α) :
    List (String × List α) × List α :=
  let hl := decompose_i P ai d
  let hh := decompose_j P ak aj ai hl.1
  let lh := decompose_j P ak aj ai hl.2
  let hhh := decompose_k P ak aj ai hh.1
  let hlh := decompose_k P ak aj ai hh.2
  let lhh := decompose_k P ak aj ai lh.1
  let llh := decompose_k P ak aj ai lh.2
  ([("HHH", hhh.1), ("HHL", hhh.2), ("HLH", hlh.1), ("HLL", hlh.2),
    ("LHH", lhh.1), ("LHL", lhh.2), ("LLH", llh.1)], llh.2)

/-- The emission loop of `_swt3` (`for i in range(start_level, start_level +
level)`): each pass decomposes the working volume, trims every detail
sub-band back to the original shape with `numpy.resize` and wraps it as an
image carrying the input image's metadata (`CopyInformation`), and feeds the
`LLL` volume to the next pass.  Returns the `ret` list and the final working
volume. -/
def swtLoop (P : List α → List α × List α) (ak aj ai n0 : ℕ) (shape0 : List ℕ)
    (m : μ) : ℕ → List α → List (List (String × Image α μ)) × List α
  | 0, d => ([], d)
  | n + 1, d =>
    let r := swtDec P ak aj ai d
    let dec := r.1.map (fun p => (p.1, Image.mk shape0 (npResize p.2 n0) m))
    let rest := swtLoop P ak aj ai n0 shape0 m n r.2
    (dec :: rest.1, rest.2)

/-- Embedding of `_swt3`: validate that the input array is 3D, zero-pad the
flat buffer so that every (odd) dimension grows to the next even size
(`data.resize(adjusted_shape, refcheck=False)`), run `start_level` warm-up
passes, run `level` emission passes, and trim the final approximation back to
the original shape. -/
def swt3 (P : List α → List α × List α) (img : Image α μ)
    (level start_level : ℕ) :
    Except String (Image α μ × List (List (String × Image α μ))) :=
  if img.shape.length ≠ 3 then Except.error ("Expected 3D data array") else
  let dk := img.shape.getD 0 0
  let dj := img.shape.getD 1 0
  let di := img.shape.getD 2 0
  let ak := adjustDim dk
  let aj := adjustDim dj
  let ai := adjustDim di
  let n0 := dk * dj * di
  let data0 := ndResize img.flat (ak * aj * ai)
  let dataW := (swtStepLLL P ak aj ai)^[start_level] data0
  let r := swtLoop P ak aj ai n0 img.shape img.meta level dataW
  Except.ok (Image.mk img.shape (npResize r.2 n0) img.meta, r.1)

/-- The identifier given to a detail sub-band of emitted-level index `idx`
(1-based, `enumerate(ret, start=1)`) with label `nm`:
`'wavelet-%s' % name` when `idx == 1`, else `'wavelet%s-%s' % (idx, name)`. -/
def detailName (idx : ℕ) (nm : String) : String :=
  if idx = 1 then "wavelet-" ++ nm else "wavelet" ++ toString idx ++ "-" ++ nm

/-- The identifier given to the final approximation: `'wavelet-LLL'` when
`len(ret) == 1`, else `'wavelet%s-LLL' % len(ret)`. -/
def approxName (n : ℕ) : String :=
  if n = 1 then "wavelet-LLL" else "wavelet" ++ toString n ++ "-LLL"

/-- The sequence of `(image, name, kwargs)` triples yielded by
`getWaveletImage` after `_swt3` succeeds: for each level (enumerated from 1)
all seven detail sub-bands in dictionary order, and finally the
approximation. -/
def emitAll (approx : Image α μ) (ret : List (List (String × Image α μ)))
    (kw : κ) : List (Image α μ × String × κ) :=
  ((List.enumFrom 1 ret).map
      (fun p => p.2.map (fun q => (q.2, detailName p.1 q.1, kw)))).flatten
  ++ [(approx, approxName ret.length, kw)]

/-- Embedding of one full consumption of the generator returned by
`getWaveletImage`: the list of items actually yielded, paired with the
uncaught exception (if any) that terminates the iteration.  The body runs
`_swt3` before the first `yield`, so a shape error yields no items. -/
def getWaveletImage (P : List α → List α × List α) (img : Image α μ)
    (level start_level : ℕ) (kw : κ) :
    List (Image α μ × String × κ) × Option String :=
  match swt3 P img level start_level with
  | Except.error e => ([], some e)
  | Except.ok r => (emitAll r.1 r.2 kw, none)

/-- A call to the generator function `getWaveletImage` before any item is
requested: Python returns the generator object immediately, so the call
merely packages its arguments; no code of the body runs until the first
`next`. -/
structure WaveletCall (α μ κ : Type) where
  P : List α → List α × List α
  img : Image α μ
  level : ℕ
  startLevel : ℕ
  kwargs : κ

/-- Calling the generator function: packages the arguments and returns
normally (total, never raises). -/
def mkWaveletCall (P : List α → List α × List α) (img : Image α μ)
    (level start_level : ℕ) (kw : κ) : WaveletCall α μ κ :=
  ⟨P, img, level, start_level, kw⟩

/-- Exhausting the generator object: only now does the body execute. -/
def WaveletCall.run (c : WaveletCall α μ κ) :
    List (Image α μ × String × κ) × Option String :=
  getWaveletImage c.P c.img c.level c.startLevel c.kwargs

/-- The seven detail sub-band labels, in the insertion order of the `dec`
dictionary of `_swt3`. -/
def labels7 : List String :=
  ["HHH", "HHL", "HLH", "HLL", "LHH", "LHL", "LLH"]

/-- The untrimmed decomposition run: the emission loop of `_swt3` with the
`numpy.resize` trimming and image wrapping left out, exposing the raw flat
buffers (of the padded working shape) that the transform computed.  Used to
compare the emitted (trimmed) volumes against what the transform computed. -/
def rawLoop (P : List α → List α × List α) (ak aj ai : ℕ) :
    ℕ → List α → List (List (String × List α)) × List α
  | 0, d => ([], d)
  | n + 1, d =>
    let r := swtDec P ak aj ai d
    let rest := rawLoop P ak aj ai n r.2
    (r.1 :: rest.1, rest.2)

/-- The 1D line of a `(·, aj, ai)`-shaped volume along the i axis through
`(k, j, ·)`. -/
def lineI (aj ai : ℕ) (v : List α) (k j : ℕ) : List α :=
  (List.range ai).map (fun i => at3 aj ai v k j i)

/-- The 1D line of a `(·, aj, ai)`-shaped volume along the j axis through
`(k, ·, i)`. -/
def lineJ (aj ai : ℕ) (v : List α) (k i : ℕ) : List α :=
  (List.range aj).map (fun j => at3 aj ai v k j i)

/-- The 1D line of an `(ak, aj, ai)`-shaped volume along the k axis through
`(·, j, i)`. -/
def lineK (ak aj ai : ℕ) (v : List α) (j i : ℕ) : List α :=
  (List.range ak).map (fun k => at3 aj ai v k j i)

/-- Modelled from the spec (§4.1 Axis Decomposer): apply a 1D operation `Q`
independently to every line along the i axis and reassemble the outputs in
original index order. -/
def applyI (Q : List α → List α) (ak aj ai : ℕ) (v : List α) : List α :=
  mk3 ak aj ai (fun k j i => (Q (lineI aj ai v k j)).getD i 0)

/-- Modelled from the spec (§4.1 Axis Decomposer): apply a 1D operation `Q`
independently to every line along the j axis and reassemble the outputs in
original index order. -/
def applyJ (Q : List α → List α) (ak aj ai : ℕ) (v : List α) : List α :=
  mk3 ak aj ai (fun k j i => (Q (lineJ aj ai v k i)).getD j 0)

/-- Modelled from the spec (§4.1 Axis Decomposer): apply a 1D operation `Q`
independently to every line along the k axis and reassemble the outputs in
original index order. -/
def applyK (Q : List α → List α) (ak aj ai : ℕ) (v : List α) : List α :=
  mk3 ak aj ai (fun k j i => (Q (lineK ak aj ai v j i)).getD k 0)

/-- The 1D outcome named by a sub-band letter: `H` is the detail (high-pass)
output of the primitive, `L` the approximation (low-pass) output. -/
def chan (P : List α → List α × List α) (c : Char) : List α → List α :=
  fun r => if c = 'H' then (P r).2 else (P r).1

/-- Select one channel of an axis decomposer's `(H, L)` output pair by its
sub-band letter. -/
def pick (c : Char) (pr : List α × List α) : List α :=
  if c = 'H' then pr.1 else pr.2

/-- Modelled from the spec (§4.2 Separable 3D Combiner): the sub-band of a
three-letter label, obtained by applying the axis decomposition along axis i
(first letter), then axis j (second letter), then axis k (third letter). -/
def sep3 (P : List α → List α × List α) (ak aj ai : ℕ) (s : String)
    (v : List α) : List α :=
  applyK (chan P (s.data.getD 2 'L')) ak aj ai
    (applyJ (chan P (s.data.getD 1 'L')) ak aj ai
      (applyI (chan P (s.data.getD 0 'L')) ak aj ai v))

/-- The lines handed to the 1D primitive by `_decompose_i` on input `d`. -/
def linesFedI (ai : ℕ) (d : List α) : List (List α) :=
  toLines ai d

/-- The lines handed to the 1D primitive by `_decompose_j` on input `d`
(the rows of `numpy.transpose(data, (0, 2, 1))`). -/
def linesFedJ (ak aj ai : ℕ) (d : List α) : List (List α) :=
  toLines aj (mk3 ak ai aj (fun k i j => at3 aj ai d k j i))

/-- The lines handed to the 1D primitive by `_decompose_k` on input `d`
(the rows of `numpy.transpose(data, (2, 1, 0))`). -/
def linesFedK (ak aj ai : ℕ) (d : List α) : List (List α) :=
  toLines ak (mk3 ai aj ak (fun i j k => at3 aj ai d k j i))

/-- All lines handed to the 1D primitive during one warm-up pass of `_swt3`
(decompose `d` along i, its approximation along j, that approximation along
k). -/
def fedLinesWarm (P : List α → List α × List α) (ak aj ai : ℕ) (d : List α) :
    List (List α) :=
  let hl := decompose_i P ai d
  let lh := decompose_j P ak aj ai hl.2
  linesFedI ai d ++ linesFedJ ak aj ai hl.2 ++ linesFedK ak aj ai lh.2

/-- All lines handed to the 1D primitive during one emission pass of `_swt3`
(decompose `d` along i, both channels along j, all four results along k). -/
def fedLinesDec (P : List α → List α × List α) (ak aj ai : ℕ) (d : List α) :
    List (List α) :=
  let hl := decompose_i P ai d
  let hh := decompose_j P ak aj ai hl.1
  let lh := decompose_j P ak aj ai hl.2
  linesFedI ai d
    ++ linesFedJ ak aj ai hl.1 ++ linesFedJ ak aj ai hl.2
    ++ linesFedK ak aj ai hh.1 ++ linesFedK ak aj ai hh.2
    ++ linesFedK ak aj ai lh.1 ++ linesFedK ak aj ai lh.2

/-- All lines handed to the 1D primitive during the emission phase of a run
(`level` passes, threading the `LLL` volume). -/
def fedLinesEmit (P : List α → List α × List α) (ak aj ai : ℕ) :
    ℕ → List α → List (List α)
  | 0, _ => []
  | n + 1, d =>
    fedLinesDec P ak aj ai d
      ++ fedLinesEmit P ak aj ai n (swtDec P ak aj ai d).2

/-- All lines handed to the 1D primitive during a whole `_swt3` run:
`start_level` warm-up passes followed by `level` emission passes. -/
def fedLinesAll (P : List α → List α × List α) (ak aj ai : ℕ) :
    ℕ → ℕ → List α → List (List α)
  | 0, lev, d => fedLinesEmit P ak aj ai lev d
  | s + 1, lev, d =>
    fedLinesWarm P ak aj ai d
      ++ fedLinesAll P ak aj ai s lev (swtStepLLL P ak aj ai d)

/-- A concrete 1D primitive satisfying the spec's boundary contract (both
outputs have the length of the input), used to instantiate the abstract
collaborator in concrete runs. -/
def idP : List ℤ → List ℤ × List ℤ := fun r => (r, r)

/-- A concrete 3D input of shape `(1, 2, 3)` — the j and i dimensions are odd,
so the flat-buffer padding is not index-aligned. -/
def imgOdd : Image ℤ ℕ := ⟨[1, 2, 3], [0, 1, 2, 3, 4, 5], 7⟩

/-- A concrete input whose data array is 2-dimensional. -/
def img2D : Image ℤ ℕ := ⟨[2, 3], [0, 1, 2, 3, 4, 5], 7⟩

/-- A concrete 3D input of shape `(2, 2, 2)` (all dimensions even). -/
def imgEven : Image ℤ ℕ := ⟨[2, 2, 2], [1, 2, 3, 4, 5, 6, 7, 8], 7⟩

/-- A concrete 3D input of shape `(3, 2, 2)`: only the slowest (k) dimension
is odd, the case in which flat-buffer padding is index-aligned. -/
def imgKOdd : Image ℤ ℕ :=
  ⟨[3, 2, 2], [0, 1, 2, 3, 4, 5, 6, 7, 8, 9, 10, 11], 5⟩

/-- Modelled from the spec (§2, §4.1): the boundary contract of the external
1D stationary transform primitive — both returned coefficient sequences have
the same length as the input line (à trous, no downsampling). -/
def LengthPreserving (P : List α → List α × List α) : Prop :=
  ∀ r, (P r).1.length = r.length ∧ (P r).2.length = r.length

theorem getD_range_map {β : Type} (f : ℕ → β) {n t : ℕ} (d : β) (h : t < n) :
    ((List.range n).map f).getD t d = f t := by
  rw [List.getD_eq_getElem?_getD, List.getElem?_map, List.getElem?_range h]
  rfl

theorem npResize_length (l : List α) (n : ℕ) : (npResize l n).length = n := by
  simp [npResize]

theorem ndResize_length (l : List α) (n : ℕ) : (ndResize l n).length = n := by
  simp [ndResize]
  omega

theorem ndResize_of_le {l : List α} {n : ℕ} (h : l.length ≤ n) :
    ndResize l n = l ++ List.replicate (n - l.length) 0 := by
  rw [ndResize, List.take_of_length_le h]

theorem npResize_getD {l : List α} {n t : ℕ} (h : t < n) (hlen : n ≤ l.length) :
    (npResize l n).getD t 0 = l.getD t 0 := by
  rw [npResize, getD_range_map _ 0 h, Nat.mod_eq_of_lt (lt_of_lt_of_le h hlen)]

theorem length_mk3 (dk dj di : ℕ) (f : ℕ → ℕ → ℕ → α) :
    (mk3 dk dj di f).length = dk * dj * di := by
  simp [mk3]

theorem index3_lt {dk dj di k j i : ℕ} (hk : k < dk) (hj : j < dj)
    (hi : i < di) : (k * dj + j) * di + i < dk * dj * di := by
  have h1 : k * dj + j + 1 ≤ dk * dj := by
    calc k * dj + j + 1 ≤ k * dj + dj := by omega
    _ = (k + 1) * dj := by ring
    _ ≤ dk * dj := Nat.mul_le_mul_right dj hk
  calc (k * dj + j) * di + i < (k * dj + j) * di + di := by omega
  _ = (k * dj + j + 1) * di := by ring
  _ ≤ dk * dj * di := Nat.mul_le_mul_right di h1

theorem index2_lt {dk dj k j : ℕ} (hk : k < dk) (hj : j < dj) :
    k * dj + j < dk * dj := by
  calc k * dj + j < k * dj + dj := by omega
  _ = (k + 1) * dj := by ring
  _ ≤ dk * dj := Nat.mul_le_mul_right dj hk

theorem at3_mk3 {dk dj di : ℕ} (f : ℕ → ℕ → ℕ → α) {k j i : ℕ}
    (hk : k < dk) (hj : j < dj) (hi : i < di) :
    at3 dj di (mk3 dk dj di f) k j i = f k j i := by
  have hdi : 0 < di := lt_of_le_of_lt (Nat.zero_le i) hi
  have hdj : 0 < dj := lt_of_le_of_lt (Nat.zero_le j) hj
  rw [at3, mk3, getD_range_map _ 0 (index3_lt hk hj hi)]
  have e1 : ((k * dj + j) * di + i) / di = k * dj + j := by
    rw [Nat.mul_comm (k * dj + j) di, Nat.mul_add_div hdi,
      Nat.div_eq_of_lt hi, Nat.add_zero]
  have e2 : ((k * dj + j) * di + i) % di = i := by
    rw [Nat.mul_comm (k * dj + j) di, Nat.mul_add_mod, Nat.mod_eq_of_lt hi]
  rw [e1, e2]
  have e3 : (k * dj + j) / dj = k := by
    rw [Nat.mul_comm k dj, Nat.mul_add_div hdj, Nat.div_eq_of_lt hj,
      Nat.add_zero]
  have e4 : (k * dj + j) % dj = j := by
    rw [Nat.mul_comm k dj, Nat.mul_add_mod, Nat.mod_eq_of_lt hj]
  rw [e3, e4]

theorem length_toLines (m : ℕ) (l : List α) :
    (toLines m l).length = l.length / m := by
  simp [toLines]

theorem toLines_getD {m q : ℕ} {l : List α} (hq : q < l.length / m) :
    (toLines m l).getD q [] = (l.drop (q * m)).take m := by
  unfold toLines
  exact getD_range_map _ [] hq

theorem toLines_chunk_length {m q : ℕ} {l : List α} (hq : q < l.length / m) :
    ((l.drop (q * m)).take m).length = m := by
  have h1 : (q + 1) * m ≤ l.length / m * m :=
    Nat.mul_le_mul_right m (Nat.succ_le_of_lt hq)
  have h2 : l.length / m * m ≤ l.length := Nat.div_mul_le_self _ _
  have h3 : q * m + m ≤ l.length := by
    have h4 : (q + 1) * m = q * m + m := by ring
    omega
  simp only [List.length_take, List.length_drop]
  omega

theorem mem_toLines_length {m : ℕ} {l : List α} {c : List α}
    (hc : c ∈ toLines m l) : c.length = m := by
  unfold toLines at hc
  obtain ⟨q, hq, rfl⟩ := List.mem_map.1 hc
  exact toLines_chunk_length (List.mem_range.1 hq)

theorem getD_flatten_uniform {β : Type} {m : ℕ} (d : β) :
    ∀ (cs : List (List β)) (q r : ℕ), (∀ c ∈ cs, c.length = m) →
      q < cs.length → r < m →
      cs.flatten.getD (q * m + r) d = (cs.getD q []).getD r d := by
  intro cs
  induction cs with
  | nil =>
    intro q r _ hq _
    simp at hq
  | cons c cs ih =>
    intro q r hall hq hr
    have hc : c.length = m := hall c (List.mem_cons_self c cs)
    cases q with
    | zero =>
      simp only [List.flatten_cons, Nat.zero_mul, Nat.zero_add]
      rw [List.getD_append _ _ _ _ (by omega)]
      rfl
    | succ q =>
      simp only [List.flatten_cons]
      rw [show (q + 1) * m + r = c.length + (q * m + r) by rw [hc]; ring]
      rw [List.getD_append_right _ _ _ _ (Nat.le_add_right _ _),
        Nat.add_sub_cancel_left]
      have := ih q r (fun x hx => hall x (List.mem_cons_of_mem c hx))
        (by simpa using hq) hr
      rw [this]
      rfl

theorem drop_take_eq_map_range (l : List α) (o m : ℕ)
    (h : o + m ≤ l.length) :
    (l.drop o).take m = (List.range m).map (fun t => l.getD (o + t) 0) := by
  apply List.ext_getElem
  · simp only [List.length_take, List.length_drop, List.length_map,
      List.length_range]
    omega
  · intro n h1 h2
    have hn : n < m := by simpa using h2
    have ho : o + n < l.length := by
      simp only [List.length_take, List.length_drop] at h1
      omega
    rw [List.getElem_take, List.getElem_drop, List.getElem_map,
      List.getElem_range, List.getD_eq_getElem l 0 ho]

theorem flatten_map_toLines_getD (f : List α → List α)
    (hf : ∀ r, (f r).length = r.length) {m bigA q r : ℕ} {l : List α}
    (hlen : l.length = bigA * m) (hq : q < bigA) (hr : r < m) :
    ((toLines m l).map f).flatten.getD (q * m + r) 0
      = (f ((l.drop (q * m)).take m)).getD r 0 := by
  have hm : 0 < m := lt_of_le_of_lt (Nat.zero_le r) hr
  have hA : l.length / m = bigA := by
    rw [hlen]
    exact Nat.mul_div_cancel bigA hm
  have hall : ∀ c ∈ (toLines m l).map f, c.length = m := by
    intro c hc
    obtain ⟨c0, hc0, rfl⟩ := List.mem_map.1 hc
    rw [hf c0, mem_toLines_length hc0]
  have hq1 : q < l.length / m := by
    rw [hA]
    exact hq
  have hq2 : q < ((toLines m l).map f).length := by
    rw [List.length_map, length_toLines, hA]
    exact hq
  rw [getD_flatten_uniform 0 _ q r hall hq2 hr]
  have hq3 : q < (toLines m l).length := by
    rw [length_toLines, hA]
    exact hq
  rw [List.getD_eq_getElem _ [] hq2, List.getElem_map,
    ← List.getD_eq_getElem _ [] hq3, toLines_getD hq1]

theorem decompose_i_at3 (P : List α → List α × List α)
    (hP : ∀ r, (P r).1.length = r.length ∧ (P r).2.length = r.length)
    {ak aj ai : ℕ} {d : List α} (hd : d.length = ak * aj * ai)
    {k j i : ℕ} (hk : k < ak) (hj : j < aj) (hi : i < ai) :
    at3 aj ai (decompose_i P ai d).1 k j i
      = (P (lineI aj ai d k j)).2.getD i 0
  ∧ at3 aj ai (decompose_i P ai d).2 k j i
      = (P (lineI aj ai d k j)).1.getD i 0 := by
  have hq : k * aj + j < ak * aj := index2_lt hk hj
  have hbound : (k * aj + j) * ai + ai ≤ d.length := by
    rw [hd]
    calc (k * aj + j) * ai + ai = (k * aj + j + 1) * ai := by ring
    _ ≤ ak * aj * ai := Nat.mul_le_mul_right ai hq
  have hline : (d.drop ((k * aj + j) * ai)).take ai = lineI aj ai d k j := by
    rw [drop_take_eq_map_range d _ ai hbound]
    rfl
  constructor
  · show at3 aj ai ((toLines ai d).map (fun r => (P r).2)).flatten k j i = _
    rw [at3, flatten_map_toLines_getD (fun r => (P r).2)
      (fun r => (hP r).2) hd hq hi, hline]
  · show at3 aj ai ((toLines ai d).map (fun r => (P r).1)).flatten k j i = _
    rw [at3, flatten_map_toLines_getD (fun r => (P r).1)
      (fun r => (hP r).1) hd hq hi, hline]

theorem decompose_j_at3 (P : List α → List α × List α)
    (hP : ∀ r, (P r).1.length = r.length ∧ (P r).2.length = r.length)
    {ak aj ai : ℕ} (d : List α)
    {k j i : ℕ} (hk : k < ak) (hj : j < aj) (hi : i < ai) :
    at3 aj ai (decompose_j P ak aj ai d).1 k j i
      = (P (lineJ aj ai d k i)).2.getD j 0
  ∧ at3 aj ai (decompose_j P ak aj ai d).2 k j i
      = (P (lineJ aj ai d k i)).1.getD j 0 := by
  have hq : k * ai + i < ak * ai := index2_lt hk hi
  have hlen : (mk3 ak ai aj (fun k i j => at3 aj ai d k j i)).length
      = ak * ai * aj := length_mk3 _ _ _ _
  have hbound : (k * ai + i) * aj + aj
      ≤ (mk3 ak ai aj (fun k i j => at3 aj ai d k j i)).length := by
    rw [hlen]
    calc (k * ai + i) * aj + aj = (k * ai + i + 1) * aj := by ring
    _ ≤ ak * ai * aj := Nat.mul_le_mul_right aj hq
  have hline : ((mk3 ak ai aj (fun k i j => at3 aj ai d k j i)).drop
        ((k * ai + i) * aj)).take aj = lineJ aj ai d k i := by
    rw [drop_take_eq_map_range _ _ aj hbound]
    apply List.map_congr_left
    intro jj hjj
    exact at3_mk3 _ hk hi (List.mem_range.1 hjj)
  constructor
  · show at3 aj ai (mk3 ak aj ai (fun k j i => at3 ai aj
      ((toLines aj (mk3 ak ai aj (fun k i j => at3 aj ai d k j i))).map
        (fun r => (P r).2)).flatten k i j)) k j i = _
    rw [at3_mk3 _ hk hj hi, at3, flatten_map_toLines_getD
      (fun r => (P r).2) (fun r => (hP r).2) hlen hq hj, hline]
  · show at3 aj ai (mk3 ak aj ai (fun k j i => at3 ai aj
      ((toLines aj (mk3 ak ai aj (fun k i j => at3 aj ai d k j i))).map
        (fun r => (P r).1)).flatten k i j)) k j i = _
    rw [at3_mk3 _ hk hj hi, at3, flatten_map_toLines_getD
      (fun r => (P r).1) (fun r => (hP r).1) hlen hq hj, hline]

theorem decompose_k_at3 (P : List α → List α × List α)
    (hP : ∀ r, (P r).1.length = r.length ∧ (P r).2.length = r.length)
    {ak aj ai : ℕ} (d : List α)
    {k j i : ℕ} (hk : k < ak) (hj : j < aj) (hi : i < ai) :
    at3 aj ai (decompose_k P ak aj ai d).1 k j i
      = (P (lineK ak aj ai d j i)).2.getD k 0
  ∧ at3 aj ai (decompose_k P ak aj ai d).2 k j i
      = (P (lineK ak aj ai d j i)).1.getD k 0 := by
  have hq : i * aj + j < ai * aj := index2_lt hi hj
  have hlen : (mk3 ai aj ak (fun i j k => at3 aj ai d k j i)).length
      = ai * aj * ak := length_mk3 _ _ _ _
  have hbound : (i * aj + j) * ak + ak
      ≤ (mk3 ai aj ak (fun i j k => at3 aj ai d k j i)).length := by
    rw [hlen]
    calc (i * aj + j) * ak + ak = (i * aj + j + 1) * ak := by ring
    _ ≤ ai * aj * ak := Nat.mul_le_mul_right ak hq
  have hline : ((mk3 ai aj ak (fun i j k => at3 aj ai d k j i)).drop
        ((i * aj + j) * ak)).take ak = lineK ak aj ai d j i := by
    rw [drop_take_eq_map_range _ _ ak hbound]
    apply List.map_congr_left
    intro kk hkk
    exact at3_mk3 _ hi hj (List.mem_range.1 hkk)
  constructor
  · show at3 aj ai (mk3 ak aj ai (fun k j i => at3 aj ak
      ((toLines ak (mk3 ai aj ak (fun i j k => at3 aj ai d k j i))).map
        (fun r => (P r).2)).flatten i j k)) k j i = _
    rw [at3_mk3 _ hk hj hi, at3, flatten_map_toLines_getD
      (fun r => (P r).2) (fun r => (hP r).2) hlen hq hk, hline]
  · show at3 aj ai (mk3 ak aj ai (fun k j i => at3 aj ak
      ((toLines ak (mk3 ai aj ak (fun i j k => at3 aj ai d k j i))).map
        (fun r => (P r).1)).flatten i j k)) k j i = _
    rw [at3_mk3 _ hk hj hi, at3, flatten_map_toLines_getD
      (fun r => (P r).1) (fun r => (hP r).1) hlen hq hk, hline]

theorem pick_decompose_i_at3 (P : List α → List α × List α)
    (hP : LengthPreserving P) (c : Char) {ak aj ai : ℕ} {d : List α}
    (hd : d.length = ak * aj * ai) {k j i : ℕ}
    (hk : k < ak) (hj : j < aj) (hi : i < ai) :
    at3 aj ai (pick c (decompose_i P ai d)) k j i
      = at3 aj ai (applyI (chan P c) ak aj ai d) k j i := by
  rw [applyI, at3_mk3 _ hk hj hi]
  unfold pick chan
  by_cases hc : c = 'H'
  · rw [if_pos hc, if_pos hc]
    exact (decompose_i_at3 P hP hd hk hj hi).1
  · rw [if_neg hc, if_neg hc]
    exact (decompose_i_at3 P hP hd hk hj hi).2

theorem pick_decompose_j_at3 (P : List α → List α × List α)
    (hP : LengthPreserving P) (c : Char) {ak aj ai : ℕ} {A B : List α}
    (hAB : ∀ k j i, k < ak → j < aj → i < ai →
      at3 aj ai A k j i = at3 aj ai B k j i)
    {k j i : ℕ} (hk : k < ak) (hj : j < aj) (hi : i < ai) :
    at3 aj ai (pick c (decompose_j P ak aj ai A)) k j i
      = at3 aj ai (applyJ (chan P c) ak aj ai B) k j i := by
  have hline : lineJ aj ai A k i = lineJ aj ai B k i := by
    apply List.map_congr_left
    intro jj hjj
    exact hAB k jj i hk (List.mem_range.1 hjj) hi
  rw [applyJ, at3_mk3 _ hk hj hi]
  unfold pick chan
  by_cases hc : c = 'H'
  · rw [if_pos hc, if_pos hc, (decompose_j_at3 P hP A hk hj hi).1, hline]
  · rw [if_neg hc, if_neg hc, (decompose_j_at3 P hP A hk hj hi).2, hline]

theorem pick_decompose_k_at3 (P : List α → List α × List α)
    (hP : LengthPreserving P) (c : Char) {ak aj ai : ℕ} {A B : List α}
    (hAB : ∀ k j i, k < ak → j < aj → i < ai →
      at3 aj ai A k j i = at3 aj ai B k j i)
    {k j i : ℕ} (hk : k < ak) (hj : j < aj) (hi : i < ai) :
    at3 aj ai (pick c (decompose_k P ak aj ai A)) k j i
      = at3 aj ai (applyK (chan P c) ak aj ai B) k j i := by
  have hline : lineK ak aj ai A j i = lineK ak aj ai B j i := by
    apply List.map_congr_left
    intro kk hkk
    exact hAB kk j i (List.mem_range.1 hkk) hj hi
  rw [applyK, at3_mk3 _ hk hj hi]
  unfold pick chan
  by_cases hc : c = 'H'
  · rw [if_pos hc, if_pos hc, (decompose_k_at3 P hP A hk hj hi).1, hline]
  · rw [if_neg hc, if_neg hc, (decompose_k_at3 P hP A hk hj hi).2, hline]

theorem comp3_at3 (P : List α → List α × List α) (hP : LengthPreserving P)
    (c1 c2 c3 : Char) {ak aj ai : ℕ} {d : List α}
    (hd : d.length = ak * aj * ai) {k j i : ℕ}
    (hk : k < ak) (hj : j < aj) (hi : i < ai) :
    at3 aj ai (pick c3 (decompose_k P ak aj ai
        (pick c2 (decompose_j P ak aj ai
          (pick c1 (decompose_i P ai d)))))) k j i
      = at3 aj ai (applyK (chan P c3) ak aj ai
          (applyJ (chan P c2) ak aj ai
            (applyI (chan P c1) ak aj ai d))) k j i := by
  have h1 : ∀ k j i, k < ak → j < aj → i < ai →
      at3 aj ai (pick c1 (decompose_i P ai d)) k j i
        = at3 aj ai (applyI (chan P c1) ak aj ai d) k j i :=
    fun k j i hk hj hi => pick_decompose_i_at3 P hP c1 hd hk hj hi
  have h2 : ∀ k j i, k < ak → j < aj → i < ai →
      at3 aj ai (pick c2 (decompose_j P ak aj ai
          (pick c1 (decompose_i P ai d)))) k j i
        = at3 aj ai (applyJ (chan P c2) ak aj ai
            (applyI (chan P c1) ak aj ai d)) k j i :=
    fun k j i hk hj hi => pick_decompose_j_at3 P hP c2 h1 hk hj hi
  exact pick_decompose_k_at3 P hP c3 h2 hk hj hi

/-- C6: the separable 3D combiner applies the axis decomposer first along
axis i, then along axis j on both results, then along axis k on all four
results; each three-letter sub-band label assigns its first letter to the
axis-i outcome, its second to the axis-j outcome and its third to the axis-k
outcome, with `H` the detail and `L` the approximation channel of the 1D
primitive: every sub-band produced by one decomposition pass (the seven
detail volumes and the `LLL` volume) agrees, at every in-range index, with
the spec-side composition `sep3` directed by its label. -/
theorem C6_separable_composition (P : List α → List α × List α)
    (hP : LengthPreserving P) {ak aj ai : ℕ} {d : List α}
    (hd : d.length = ak * aj * ai) :
    ∀ p ∈ (swtDec P ak aj ai d).1 ++ [("LLL", (swtDec P ak aj ai d).2)],
      ∀ k j i, k < ak → j < aj → i < ai →
        at3 aj ai p.2 k j i = at3 aj ai (sep3 P ak aj ai p.1 d) k j i := by
  intro p hp k j i hk hj hi
  simp only [swtDec, List.mem_append, List.mem_cons, List.not_mem_nil,
    or_false] at hp
  rcases hp with (rfl | rfl | rfl | rfl | rfl | rfl | rfl) | rfl
  · exact comp3_at3 P hP 'H' 'H' 'H' hd hk hj hi
  · exact comp3_at3 P hP 'H' 'H' 'L' hd hk hj hi
  · exact comp3_at3 P hP 'H' 'L' 'H' hd hk hj hi
  · exact comp3_at3 P hP 'H' 'L' 'L' hd hk hj hi
  · exact comp3_at3 P hP 'L' 'H' 'H' hd hk hj hi
  · exact comp3_at3 P hP 'L' 'H' 'L' hd hk hj hi
  · exact comp3_at3 P hP 'L' 'L' 'H' hd hk hj hi
  · exact comp3_at3 P hP 'L' 'L' 'L' hd hk hj hi

/-- Witness for C6 at a concrete run: the identity-like primitive on the
padded buffer of `imgOdd`. -/
theorem C6_separable_composition_witness :
    LengthPreserving idP
  ∧ (ndResize imgOdd.flat 16).length = 2 * 2 * 4
  ∧ (∀ p ∈ (swtDec idP 2 2 4 (ndResize imgOdd.flat 16)).1
        ++ [("LLL", (swtDec idP 2 2 4 (ndResize imgOdd.flat 16)).2)],
      ∀ k j i, k < 2 → j < 2 → i < 4 →
        at3 2 4 p.2 k j i
          = at3 2 4 (sep3 idP 2 2 4 p.1 (ndResize imgOdd.flat 16)) k j i) :=
  ⟨fun r => ⟨rfl, rfl⟩, by decide,
    C6_separable_composition idP (fun r => ⟨rfl, rfl⟩) (by decide)⟩

theorem swtLoop_length (P : List α → List α × List α) (ak aj ai n0 : ℕ)
    (shape0 : List ℕ) (m : μ) :
    ∀ (n : ℕ) (d : List α), (swtLoop P ak aj ai n0 shape0 m n d).1.length = n := by
  intro n
  induction n with
  | zero => intro d; rfl
  | succ n ih =>
    intro d
    simp only [swtLoop, List.length_cons, ih]

theorem swtLoop_labels (P : List α → List α × List α) (ak aj ai n0 : ℕ)
    (shape0 : List ℕ) (m : μ) :
    ∀ (n : ℕ) (d : List α), ∀ dec ∈ (swtLoop P ak aj ai n0 shape0 m n d).1,
      dec.map Prod.fst = labels7 := by
  intro n
  induction n with
  | zero =>
    intro d dec h
    simp [swtLoop] at h
  | succ n ih =>
    intro d dec h
    simp only [swtLoop, List.mem_cons] at h
    rcases h with rfl | h
    · rfl
    · exact ih _ dec h

theorem swtLoop_items (P : List α → List α × List α) (ak aj ai n0 : ℕ)
    (shape0 : List ℕ) (m : μ) :
    ∀ (n : ℕ) (d : List α), ∀ dec ∈ (swtLoop P ak aj ai n0 shape0 m n d).1,
      ∀ p ∈ dec, p.2.shape = shape0 ∧ p.2.flat.length = n0 ∧ p.2.meta = m := by
  intro n
  induction n with
  | zero =>
    intro d dec h
    simp [swtLoop] at h
  | succ n ih =>
    intro d dec h
    simp only [swtLoop, List.mem_cons] at h
    rcases h with rfl | h
    · intro p hp
      obtain ⟨q, _, rfl⟩ := List.mem_map.1 hp
      exact ⟨rfl, npResize_length _ _, rfl⟩
    · exact ih _ dec h

theorem mem_of_mem_enumFrom {β : Type} :
    ∀ {l : List β} {n : ℕ} {q : ℕ × β}, q ∈ List.enumFrom n l → q.2 ∈ l := by
  intro l
  induction l with
  | nil =>
    intro n q h
    simp [List.enumFrom] at h
  | cons x l ih =>
    intro n q h
    simp only [List.enumFrom, List.mem_cons] at h ⊢
    rcases h with rfl | h
    · exact Or.inl rfl
    · exact Or.inr (ih h)

theorem swt3_eq_ok (P : List α → List α × List α) (img : Image α μ)
    (level start_level : ℕ) {dk dj di : ℕ}
    (himg : img.shape = [dk, dj, di]) :
    swt3 P img level start_level = Except.ok
      (Image.mk img.shape
        (npResize (swtLoop P (adjustDim dk) (adjustDim dj) (adjustDim di)
            (dk * dj * di) img.shape img.meta level
            ((swtStepLLL P (adjustDim dk) (adjustDim dj)
                (adjustDim di))^[start_level]
              (ndResize img.flat
                (adjustDim dk * adjustDim dj * adjustDim di)))).2
          (dk * dj * di)) img.meta,
       (swtLoop P (adjustDim dk) (adjustDim dj) (adjustDim di)
          (dk * dj * di) img.shape img.meta level
          ((swtStepLLL P (adjustDim dk) (adjustDim dj)
              (adjustDim di))^[start_level]
            (ndResize img.flat
              (adjustDim dk * adjustDim dj * adjustDim di)))).1) := by
  have h3 : ¬ img.shape.length ≠ 3 := by
    simp [himg]
  rw [swt3, if_neg h3, himg]
  rfl

/-- C2: for every valid 3D input and every `(wavelet, level, start_level)`,
every emitted volume — every detail sub-band at every level and the final
approximation — has exactly the original pre-padding shape `(dk, dj, di)`
(its flat buffer holds exactly `dk*dj*di` samples), never the padded working
shape, and carries the input volume's spatial metadata unchanged. -/
theorem C2_shape_and_metadata (P : List α → List α × List α)
    (img : Image α μ) (level start_level : ℕ) (kw : κ) {dk dj di : ℕ}
    (himg : img.shape = [dk, dj, di]) :
    ∀ it ∈ (getWaveletImage P img level start_level kw).1,
      it.1.shape = [dk, dj, di] ∧ it.1.flat.length = dk * dj * di
        ∧ it.1.meta = img.meta := by
  intro it hit
  rw [getWaveletImage, swt3_eq_ok P img level start_level himg] at hit
  simp only [emitAll, List.mem_append] at hit
  rcases hit with hit | hit
  · obtain ⟨g, hg, hitg⟩ := List.mem_flatten.1 hit
    obtain ⟨q, hq, rfl⟩ := List.mem_map.1 hg
    obtain ⟨pr, hpr, rfl⟩ := List.mem_map.1 hitg
    have hdec : q.2 ∈ (swtLoop P (adjustDim dk) (adjustDim dj) (adjustDim di)
        (dk * dj * di) img.shape img.meta level
        ((swtStepLLL P (adjustDim dk) (adjustDim dj)
            (adjustDim di))^[start_level]
          (ndResize img.flat
            (adjustDim dk * adjustDim dj * adjustDim di)))).1 :=
      mem_of_mem_enumFrom hq
    have := swtLoop_items P (adjustDim dk) (adjustDim dj) (adjustDim di)
      (dk * dj * di) img.shape img.meta level _ q.2 hdec pr hpr
    rw [himg] at this
    exact this
  · rw [List.mem_singleton] at hit
    subst hit
    exact ⟨himg, npResize_length _ _, rfl⟩

/-- Witness for C2: a concrete two-level run on `imgOdd`. -/
theorem C2_shape_and_metadata_witness :
    imgOdd.shape = [1, 2, 3]
  ∧ (∀ it ∈ (getWaveletImage idP imgOdd 2 1 99).1,
      it.1.shape = [1, 2, 3] ∧ it.1.flat.length = 1 * 2 * 3
        ∧ it.1.meta = imgOdd.meta) :=
  ⟨rfl, C2_shape_and_metadata idP imgOdd 2 1 99 rfl⟩

theorem swt3_error_of_not3 (P : List α → List α × List α) (img : Image α μ)
    (level start_level : ℕ) (himg : img.shape.length ≠ 3) :
    swt3 P img level start_level
      = Except.error ("Expected 3D data array") := by
  rw [swt3, if_pos himg]

/-- C7: for every input whose data array is not exactly three-dimensional,
the engine raises `ValueError("Expected 3D data array")` before any
decomposition computation: `_swt3` returns the error and the output sequence
contains no item at all. -/
theorem C7_shape_error (P : List α → List α × List α) (img : Image α μ)
    (level start_level : ℕ) (kw : κ) (himg : img.shape.length ≠ 3) :
    swt3 P img level start_level = Except.error ("Expected 3D data array")
  ∧ getWaveletImage P img level start_level kw
      = ([], some ("Expected 3D data array")) := by
  have h := swt3_error_of_not3 (μ := μ) P img level start_level himg
  refine ⟨h, ?_⟩
  rw [getWaveletImage, h]

/-- Witness for C7: a 2-dimensional input. -/
theorem C7_shape_error_witness :
    img2D.shape.length ≠ 3
  ∧ (swt3 idP img2D 1 0 = Except.error ("Expected 3D data array")
      ∧ getWaveletImage idP img2D 1 0 99
          = ([], some ("Expected 3D data array"))) :=
  ⟨by decide, C7_shape_error idP img2D 1 0 99 (by decide)⟩

/-- C8: the engine is deterministic — two runs with identical inputs (same
resolved wavelet primitive, same input volume, same level and start level,
same pass-through options) produce identical output sequences: the same
volumes with identical samples and identical identifier strings in identical
order. -/
theorem C8_determinism (P₁ P₂ : List α → List α × List α)
    (img₁ img₂ : Image α μ) (l₁ l₂ s₁ s₂ : ℕ) (kw₁ kw₂ : κ)
    (hP : P₁ = P₂) (himg : img₁ = img₂) (hl : l₁ = l₂) (hs : s₁ = s₂)
    (hkw : kw₁ = kw₂) :
    getWaveletImage P₁ img₁ l₁ s₁ kw₁ = getWaveletImage P₂ img₂ l₂ s₂ kw₂ := by
  rw [hP, himg, hl, hs, hkw]

/-- Witness for C8 at a concrete pair of identical runs. -/
theorem C8_determinism_witness :
    idP = idP ∧ imgEven = imgEven
  ∧ getWaveletImage idP imgEven 1 0 99 = getWaveletImage idP imgEven 1 0 99 :=
  ⟨rfl, rfl, C8_determinism idP idP imgEven imgEven 1 1 0 0 99 99
    rfl rfl rfl rfl rfl⟩

/-- C9: `getWaveletImage` is a generator: calling it packages the arguments
and returns normally even for a non-3D input, and the
`ValueError("Expected 3D data array")` surfaces only when the sequence is
consumed; in that case the run yields no item at all. -/
theorem C9_generator_laziness (P : List α → List α × List α)
    (img : Image α μ) (level start_level : ℕ) (kw : κ)
    (himg : img.shape.length ≠ 3) :
    (mkWaveletCall P img level start_level kw).img = img
  ∧ (mkWaveletCall P img level start_level kw).run
      = ([], some ("Expected 3D data array")) := by
  refine ⟨rfl, ?_⟩
  show getWaveletImage P img level start_level kw = _
  rw [getWaveletImage, swt3_error_of_not3 P img level start_level himg]

/-- Witness for C9: forcing the generator for a 2D input yields the error and
no items. -/
theorem C9_generator_laziness_witness :
    img2D.shape.length ≠ 3
  ∧ ((mkWaveletCall idP img2D 1 0 99).img = img2D
      ∧ (mkWaveletCall idP img2D 1 0 99).run
          = ([], some ("Expected 3D data array"))) :=
  ⟨by decide, C9_generator_laziness idP img2D 1 0 99 (by decide)⟩

/-- C4: for every run and every emitted level, the level's detail labels are
exactly {HHH, HHL, HLH, HLL, LHH, LHL, LLH}, each exactly once (the label
list of every level result equals `labels7`, which has no duplicates), and
`LLL` never appears among a level's detail labels. -/
theorem C4_subband_labels (P : List α → List α × List α) (img : Image α μ)
    (level start_level : ℕ) {dk dj di : ℕ}
    (himg : img.shape = [dk, dj, di]) :
    ∀ approx ret, swt3 P img level start_level = Except.ok (approx, ret) →
      ∀ dec ∈ ret, dec.map Prod.fst = labels7 ∧ labels7.Nodup
        ∧ ("LLL" ∉ dec.map Prod.fst) := by
  intro approx ret hrun dec hdec
  rw [swt3_eq_ok P img level start_level himg] at hrun
  have hret : ret = (swtLoop P (adjustDim dk) (adjustDim dj) (adjustDim di)
      (dk * dj * di) img.shape img.meta level
      ((swtStepLLL P (adjustDim dk) (adjustDim dj)
          (adjustDim di))^[start_level]
        (ndResize img.flat
          (adjustDim dk * adjustDim dj * adjustDim di)))).1 := by
    cases hrun
    rfl
  rw [hret] at hdec
  have hlab := swtLoop_labels P (adjustDim dk) (adjustDim dj) (adjustDim di)
    (dk * dj * di) img.shape img.meta level _ dec hdec
  exact ⟨hlab, by decide, by rw [hlab]; decide⟩

/-- Witness for C4 at a concrete run. -/
theorem C4_subband_labels_witness :
    imgOdd.shape = [1, 2, 3]
  ∧ swt3 idP imgOdd 1 0 = Except.ok
      (((swt3 idP imgOdd 1 0).toOption.getD (Image.mk [] [] 0, [])).1,
       ((swt3 idP imgOdd 1 0).toOption.getD (Image.mk [] [] 0, [])).2)
  ∧ ∀ dec ∈ ((swt3 idP imgOdd 1 0).toOption.getD (Image.mk [] [] 0, [])).2,
      dec.map Prod.fst = labels7 ∧ labels7.Nodup
        ∧ ("LLL" ∉ dec.map Prod.fst) :=
  ⟨rfl, rfl, C4_subband_labels idP imgOdd 1 0 rfl _ _ rfl⟩

theorem adjustDim_even (d : ℕ) : 2 ∣ adjustDim d := by
  unfold adjustDim
  by_cases h : d % 2 ≠ 0
  · rw [if_pos h]
    omega
  · rw [if_neg h]
    omega

theorem adjustDim_ge (d : ℕ) : d ≤ adjustDim d := by
  unfold adjustDim
  by_cases h : d % 2 ≠ 0
  · rw [if_pos h]
    omega
  · rw [if_neg h]

theorem fedLinesWarm_even (P : List α → List α × List α) {ak aj ai : ℕ}
    (hak : 2 ∣ ak) (haj : 2 ∣ aj) (hai : 2 ∣ ai) (d : List α) :
    ∀ r ∈ fedLinesWarm P ak aj ai d, 2 ∣ r.length := by
  intro r hr
  simp only [fedLinesWarm, linesFedI, linesFedJ, linesFedK,
    List.mem_append] at hr
  rcases hr with (hr | hr) | hr
  · rw [mem_toLines_length hr]
    exact hai
  · rw [mem_toLines_length hr]
    exact haj
  · rw [mem_toLines_length hr]
    exact hak

theorem fedLinesDec_even (P : List α → List α × List α) {ak aj ai : ℕ}
    (hak : 2 ∣ ak) (haj : 2 ∣ aj) (hai : 2 ∣ ai) (d : List α) :
    ∀ r ∈ fedLinesDec P ak aj ai d, 2 ∣ r.length := by
  intro r hr
  simp only [fedLinesDec, linesFedI, linesFedJ, linesFedK,
    List.mem_append] at hr
  rcases hr with (((((hr | hr) | hr) | hr) | hr) | hr) | hr
  all_goals rw [mem_toLines_length hr]
  · exact hai
  · exact haj
  · exact haj
  · exact hak
  · exact hak
  · exact hak
  · exact hak

theorem fedLinesEmit_even (P : List α → List α × List α) {ak aj ai : ℕ}
    (hak : 2 ∣ ak) (haj : 2 ∣ aj) (hai : 2 ∣ ai) :
    ∀ (n : ℕ) (d : List α), ∀ r ∈ fedLinesEmit P ak aj ai n d,
      2 ∣ r.length := by
  intro n
  induction n with
  | zero =>
    intro d r hr
    simp [fedLinesEmit] at hr
  | succ n ih =>
    intro d r hr
    simp only [fedLinesEmit, List.mem_append] at hr
    rcases hr with hr | hr
    · exact fedLinesDec_even P hak haj hai d r hr
    · exact ih _ r hr

theorem fedLinesAll_even (P : List α → List α × List α) {ak aj ai : ℕ}
    (hak : 2 ∣ ak) (haj : 2 ∣ aj) (hai : 2 ∣ ai) :
    ∀ (s lev : ℕ) (d : List α), ∀ r ∈ fedLinesAll P ak aj ai s lev d,
      2 ∣ r.length := by
  intro s
  induction s with
  | zero =>
    intro lev d r hr
    exact fedLinesEmit_even P hak haj hai lev d r hr
  | succ s ih =>
    intro lev d r hr
    simp only [fedLinesAll, List.mem_append] at hr
    rcases hr with hr | hr
    · exact fedLinesWarm_even P hak haj hai d r hr
    · exact ih lev _ r hr

/-- C10: after the one-time padding of `_swt3` every dimension of the working
array is even, and every 1D line handed to the 1D transform primitive during
every warm-up and emission pass has even length, so the primitive's
even-length precondition is satisfied on every call and its odd-length error
branch is unreachable. -/
theorem C10_even_lines (P : List α → List α × List α) (img : Image α μ)
    (level start_level : ℕ) {dk dj di : ℕ}
    (himg : img.shape = [dk, dj, di]) :
    (2 ∣ adjustDim dk ∧ 2 ∣ adjustDim dj ∧ 2 ∣ adjustDim di)
  ∧ ∀ r ∈ fedLinesAll P (adjustDim dk) (adjustDim dj) (adjustDim di)
        start_level level
        (ndResize img.flat (adjustDim dk * adjustDim dj * adjustDim di)),
      2 ∣ r.length := by
  refine ⟨⟨adjustDim_even dk, adjustDim_even dj, adjustDim_even di⟩, ?_⟩
  exact fedLinesAll_even P (adjustDim_even dk) (adjustDim_even dj)
    (adjustDim_even di) start_level level _

/-- Witness for C10 at a concrete run with one warm-up and one emission
pass. -/
theorem C10_even_lines_witness :
    imgOdd.shape = [1, 2, 3]
  ∧ ((2 ∣ adjustDim 1 ∧ 2 ∣ adjustDim 2 ∧ 2 ∣ adjustDim 3)
      ∧ ∀ r ∈ fedLinesAll idP (adjustDim 1) (adjustDim 2) (adjustDim 3)
            1 1 (ndResize imgOdd.flat (adjustDim 1 * adjustDim 2 * adjustDim 3)),
          2 ∣ r.length) :=
  ⟨rfl, C10_even_lines idP imgOdd 1 1 rfl⟩

theorem take3_rev_append (a b : String) (hb : 3 ≤ b.data.length) :
    (a ++ b).data.reverse.take 3 = b.data.reverse.take 3 := by
  rw [String.data_append, List.reverse_append,
    List.take_append_of_le_length (by simpa using hb)]

theorem detailName_lastThree (idx : ℕ) (nm : String)
    (h3 : 3 ≤ nm.data.length) :
    (detailName idx nm).data.reverse.take 3 = nm.data.reverse.take 3 := by
  unfold detailName
  by_cases h : idx = 1
  · rw [if_pos h]
    exact take3_rev_append _ nm h3
  · rw [if_neg h]
    exact take3_rev_append _ nm h3

theorem approxName_lastThree (n : ℕ) :
    (approxName n).data.reverse.take 3 = ['L', 'L', 'L'] := by
  unfold approxName
  by_cases h : n = 1
  · rw [if_pos h]
    decide
  · rw [if_neg h, take3_rev_append _ _ (by decide : 3 ≤ ("-LLL").data.length)]
    decide

theorem detailName_ne_approxName {nm : String} (idx n : ℕ)
    (h3 : 3 ≤ nm.data.length)
    (hne : nm.data.reverse.take 3 ≠ ['L', 'L', 'L']) :
    detailName idx nm ≠ approxName n := by
  intro he
  apply hne
  rw [← detailName_lastThree idx nm h3, he, approxName_lastThree]

theorem labels7_facts :
    ∀ nm ∈ labels7,
      3 ≤ nm.data.length ∧ nm.data.reverse.take 3 ≠ ['L', 'L', 'L'] := by
  decide

theorem range_succ_flatten {β : Type} (m : ℕ) (g : ℕ → List β) :
    ((List.range (m + 1)).map (fun t => g t)).flatten
      = g 0 ++ ((List.range m).map (fun t => g (t + 1))).flatten := by
  rw [List.range_succ_eq_map]
  simp [List.map_map, Function.comp_def]

theorem enumFrom_names (kw : κ) :
    ∀ (ret : List (List (String × Image α μ))) (s : ℕ),
      (∀ dec ∈ ret, dec.map Prod.fst = labels7) →
      (((List.enumFrom s ret).map
          (fun p => p.2.map
            (fun q => (q.2, detailName p.1 q.1, kw)))).flatten.map
        (fun it => it.2.1))
      = ((List.range ret.length).map
          (fun t => labels7.map (fun nm => detailName (s + t) nm))).flatten := by
  intro ret
  induction ret with
  | nil =>
    intro s _
    rfl
  | cons dec ret ih =>
    intro s hlab
    have hdec : dec.map Prod.fst = labels7 :=
      hlab dec (List.mem_cons_self _ _)
    simp only [List.enumFrom, List.map_cons, List.flatten_cons,
      List.map_append, List.length_cons]
    rw [ih (s + 1) (fun d hd => hlab d (List.mem_cons_of_mem _ hd))]
    rw [range_succ_flatten ret.length
      (fun t => labels7.map (fun nm => detailName (s + t) nm))]
    congr 1
    · rw [List.map_map, ← hdec, List.map_map]
      apply List.map_congr_left
      intro q hq
      simp [Function.comp_def]
    · apply congrArg
      apply List.map_congr_left
      intro t ht
      have : s + 1 + t = s + (t + 1) := by omega
      rw [this]

theorem emitAll_names (approx : Image α μ)
    (ret : List (List (String × Image α μ))) (kw : κ)
    (hlab : ∀ dec ∈ ret, dec.map Prod.fst = labels7) :
    (emitAll approx ret kw).map (fun it => it.2.1)
      = ((List.range ret.length).map
          (fun t => labels7.map (fun nm => detailName (1 + t) nm))).flatten
        ++ [approxName ret.length] := by
  rw [emitAll, List.map_append]
  congr 1
  exact enumFrom_names kw ret 1 hlab

theorem flatten_const_length {β : Type} (m : ℕ) :
    ∀ (L : List (List β)), (∀ g ∈ L, g.length = m) →
      L.flatten.length = m * L.length := by
  intro L
  induction L with
  | nil =>
    intro _
    simp
  | cons g L ih =>
    intro h
    simp only [List.flatten_cons, List.length_append,
      h g (List.mem_cons_self _ _), List.length_cons,
      ih (fun x hx => h x (List.mem_cons_of_mem _ hx))]
    ring

theorem approxName_not_mem_detail (n lev : ℕ) :
    approxName n ∉ ((List.range lev).map
      (fun t => labels7.map (fun nm => detailName (1 + t) nm))).flatten := by
  intro hmem
  obtain ⟨g, hg, hx⟩ := List.mem_flatten.1 hmem
  obtain ⟨t, _, rfl⟩ := List.mem_map.1 hg
  obtain ⟨nm, hnm, he⟩ := List.mem_map.1 hx
  exact detailName_ne_approxName (1 + t) n (labels7_facts nm hnm).1
    (labels7_facts nm hnm).2 he

theorem emitAll_props (approx : Image α μ)
    (ret : List (List (String × Image α μ))) (kw : κ)
    (hlab : ∀ dec ∈ ret, dec.map Prod.fst = labels7) :
    (emitAll approx ret kw).length = 7 * ret.length + 1
  ∧ ((emitAll approx ret kw).map (fun it => it.2.1)).getLast?
      = some (approxName ret.length)
  ∧ ((emitAll approx ret kw).map (fun it => it.2.1)).count
      (approxName ret.length) = 1 := by
  have hnm := emitAll_names approx ret kw hlab
  have hg : ∀ g ∈ (List.range ret.length).map
      (fun t => labels7.map (fun nm => detailName (1 + t) nm)),
      g.length = 7 := by
    intro g hgm
    obtain ⟨t, _, rfl⟩ := List.mem_map.1 hgm
    rfl
  refine ⟨?_, ?_, ?_⟩
  · have h1 : (emitAll approx ret kw).length
        = ((emitAll approx ret kw).map (fun it => it.2.1)).length :=
      (List.length_map _ _).symm
    rw [h1, hnm, List.length_append,
      flatten_const_length 7 _ hg, List.length_map, List.length_range]
    rfl
  · rw [hnm]
    exact List.getLast?_concat _
  · rw [hnm, List.count_append,
      List.count_eq_zero.2 (approxName_not_mem_detail ret.length ret.length)]
    simp

/-- C3: for every valid 3D input, every level count `n ≥ 1` and every start
level, the run yields no error and exactly `7n + 1` items: `7n` detail items
grouped by level in increasing level order (the identifier list is the
concatenation of the per-level label groups for levels `1..n`), followed by
exactly one approximation as the last item, whose identifier occurs exactly
once in the run. -/
theorem C3_item_count (P : List α → List α × List α) (img : Image α μ)
    (level start_level : ℕ) (kw : κ) {dk dj di : ℕ}
    (himg : img.shape = [dk, dj, di]) (hlev : 1 ≤ level) :
    (getWaveletImage P img level start_level kw).2 = none
  ∧ (getWaveletImage P img level start_level kw).1.length = 7 * level + 1
  ∧ ((getWaveletImage P img level start_level kw).1.map (fun it => it.2.1))
      = ((List.range level).map
          (fun t => labels7.map (fun nm => detailName (1 + t) nm))).flatten
        ++ [approxName level]
  ∧ ((getWaveletImage P img level start_level kw).1.map
      (fun it => it.2.1)).getLast? = some (approxName level)
  ∧ ((getWaveletImage P img level start_level kw).1.map
      (fun it => it.2.1)).count (approxName level) = 1 := by
  rw [getWaveletImage, swt3_eq_ok P img level start_level himg]
  have hlab := swtLoop_labels P (adjustDim dk) (adjustDim dj) (adjustDim di)
    (dk * dj * di) img.shape img.meta level
    ((swtStepLLL P (adjustDim dk) (adjustDim dj)
        (adjustDim di))^[start_level]
      (ndResize img.flat (adjustDim dk * adjustDim dj * adjustDim di)))
  have hlen := swtLoop_length P (adjustDim dk) (adjustDim dj) (adjustDim di)
    (dk * dj * di) img.shape img.meta level
    ((swtStepLLL P (adjustDim dk) (adjustDim dj)
        (adjustDim di))^[start_level]
      (ndResize img.flat (adjustDim dk * adjustDim dj * adjustDim di)))
  have hp := emitAll_props (Image.mk img.shape
      (npResize (swtLoop P (adjustDim dk) (adjustDim dj) (adjustDim di)
          (dk * dj * di) img.shape img.meta level
          ((swtStepLLL P (adjustDim dk) (adjustDim dj)
              (adjustDim di))^[start_level]
            (ndResize img.flat
              (adjustDim dk * adjustDim dj * adjustDim di)))).2
        (dk * dj * di)) img.meta)
    ((swtLoop P (adjustDim dk) (adjustDim dj) (adjustDim di)
        (dk * dj * di) img.shape img.meta level
        ((swtStepLLL P (adjustDim dk) (adjustDim dj)
            (adjustDim di))^[start_level]
          (ndResize img.flat
            (adjustDim dk * adjustDim dj * adjustDim di)))).1) kw hlab
  have hnm := emitAll_names (Image.mk img.shape
      (npResize (swtLoop P (adjustDim dk) (adjustDim dj) (adjustDim di)
          (dk * dj * di) img.shape img.meta level
          ((swtStepLLL P (adjustDim dk) (adjustDim dj)
              (adjustDim di))^[start_level]
            (ndResize img.flat
              (adjustDim dk * adjustDim dj * adjustDim di)))).2
        (dk * dj * di)) img.meta)
    ((swtLoop P (adjustDim dk) (adjustDim dj) (adjustDim di)
        (dk * dj * di) img.shape img.meta level
        ((swtStepLLL P (adjustDim dk) (adjustDim dj)
            (adjustDim di))^[start_level]
          (ndResize img.flat
            (adjustDim dk * adjustDim dj * adjustDim di)))).1) kw hlab
  rw [hlen] at hp hnm
  exact ⟨rfl, hp.1, hnm, hp.2.1, hp.2.2⟩

/-- Witness for C3 at a concrete two-level run. -/
theorem C3_item_count_witness :
    imgOdd.shape = [1, 2, 3] ∧ 1 ≤ 2
  ∧ ((getWaveletImage idP imgOdd 2 0 99).2 = none
      ∧ (getWaveletImage idP imgOdd 2 0 99).1.length = 7 * 2 + 1
      ∧ ((getWaveletImage idP imgOdd 2 0 99).1.map (fun it => it.2.1))
          = ((List.range 2).map
              (fun t => labels7.map (fun nm => detailName (1 + t) nm))).flatten
            ++ [approxName 2]
      ∧ ((getWaveletImage idP imgOdd 2 0 99).1.map
          (fun it => it.2.1)).getLast? = some (approxName 2)
      ∧ ((getWaveletImage idP imgOdd 2 0 99).1.map
          (fun it => it.2.1)).count (approxName 2) = 1) :=
  ⟨rfl, by omega, C3_item_count idP imgOdd 2 0 99 rfl (by omega)⟩

/-- C5: the identifier of a detail item of emitted-level index `idx = t + 1`
(1-based over emitted levels, independent of `start_level`) with label `L` is
`"wavelet-" ++ L` when `idx = 1` and `"wavelet" ++ idx ++ "-" ++ L`
otherwise; the last item's identifier is `"wavelet-LLL"` when exactly one
level was requested and `"wavelet" ++ levelCount ++ "-LLL"` otherwise. -/
theorem C5_naming (P : List α → List α × List α) (img : Image α μ)
    (level start_level : ℕ) (kw : κ) {dk dj di : ℕ}
    (himg : img.shape = [dk, dj, di]) :
    ((getWaveletImage P img level start_level kw).1.map (fun it => it.2.1))
      = ((List.range level).map (fun t => labels7.map (fun nm =>
            if t + 1 = 1 then "wavelet-" ++ nm
            else "wavelet" ++ toString (t + 1) ++ "-" ++ nm))).flatten
        ++ [if level = 1 then "wavelet-LLL"
            else "wavelet" ++ toString level ++ "-LLL"] := by
  rw [getWaveletImage, swt3_eq_ok P img level start_level himg]
  have hlab := swtLoop_labels P (adjustDim dk) (adjustDim dj) (adjustDim di)
    (dk * dj * di) img.shape img.meta level
    ((swtStepLLL P (adjustDim dk) (adjustDim dj)
        (adjustDim di))^[start_level]
      (ndResize img.flat (adjustDim dk * adjustDim dj * adjustDim di)))
  have hlen := swtLoop_length P (adjustDim dk) (adjustDim dj) (adjustDim di)
    (dk * dj * di) img.shape img.meta level
    ((swtStepLLL P (adjustDim dk) (adjustDim dj)
        (adjustDim di))^[start_level]
      (ndResize img.flat (adjustDim dk * adjustDim dj * adjustDim di)))
  rw [emitAll_names _ _ kw hlab, hlen]
  congr 1
  · apply congrArg
    apply List.map_congr_left
    intro t ht
    apply List.map_congr_left
    intro nm hnm
    have h1 : 1 + t = t + 1 := by omega
    rw [h1]
    rfl

/-- Witness for C5 at a concrete two-level run. -/
theorem C5_naming_witness :
    imgOdd.shape = [1, 2, 3]
  ∧ ((getWaveletImage idP imgOdd 2 0 99).1.map (fun it => it.2.1))
      = ((List.range 2).map (fun t => labels7.map (fun nm =>
            if t + 1 = 1 then "wavelet-" ++ nm
            else "wavelet" ++ toString (t + 1) ++ "-" ++ nm))).flatten
        ++ [if 2 = 1 then "wavelet-LLL"
            else "wavelet" ++ toString 2 ++ "-LLL"] :=
  ⟨rfl, C5_naming idP imgOdd 2 0 99 rfl⟩

theorem adjustDim_odd {d : ℕ} (h : d % 2 ≠ 0) : adjustDim d = d + 1 := by
  unfold adjustDim
  rw [if_pos h]

theorem adjustDim_of_even {d : ℕ} (h : d % 2 = 0) : adjustDim d = d := by
  unfold adjustDim
  rw [if_neg (by omega)]

theorem swtStepLLL_length (P : List α → List α × List α) (ak aj ai : ℕ)
    (d : List α) : (swtStepLLL P ak aj ai d).length = ak * aj * ai := by
  simp [swtStepLLL, decompose_k, length_mk3]

theorem iterate_swtStepLLL_length (P : List α → List α × List α)
    (ak aj ai : ℕ) :
    ∀ (n : ℕ) (d : List α), d.length = ak * aj * ai →
      ((swtStepLLL P ak aj ai)^[n] d).length = ak * aj * ai := by
  intro n
  induction n with
  | zero =>
    intro d hd
    exact hd
  | succ n ih =>
    intro d hd
    rw [Function.iterate_succ_apply]
    exact ih _ (swtStepLLL_length P ak aj ai d)

theorem swtDec_flat_lengths (P : List α → List α × List α) (ak aj ai : ℕ)
    (d : List α) :
    (∀ p ∈ (swtDec P ak aj ai d).1, p.2.length = ak * aj * ai)
  ∧ (swtDec P ak aj ai d).2.length = ak * aj * ai := by
  constructor
  · intro p hp
    simp only [swtDec, List.mem_cons, List.not_mem_nil, or_false] at hp
    rcases hp with rfl | rfl | rfl | rfl | rfl | rfl | rfl
    all_goals simp [decompose_k, length_mk3]
  · simp [swtDec, decompose_k, length_mk3]

theorem rawLoop_lengths (P : List α → List α × List α) (ak aj ai : ℕ) :
    ∀ (n : ℕ) (d : List α), d.length = ak * aj * ai →
      (∀ dec ∈ (rawLoop P ak aj ai n d).1, ∀ p ∈ dec,
        p.2.length = ak * aj * ai)
    ∧ (rawLoop P ak aj ai n d).2.length = ak * aj * ai := by
  intro n
  induction n with
  | zero =>
    intro d hd
    exact ⟨by intro dec h; simp [rawLoop] at h, hd⟩
  | succ n ih =>
    intro d hd
    constructor
    · intro dec h
      simp only [rawLoop, List.mem_cons] at h
      rcases h with rfl | h
      · exact (swtDec_flat_lengths P ak aj ai d).1
      · exact (ih _ (swtDec_flat_lengths P ak aj ai d).2).1 dec h
    · exact (ih _ (swtDec_flat_lengths P ak aj ai d).2).2

theorem swtLoop_eq_rawLoop (P : List α → List α × List α) (ak aj ai n0 : ℕ)
    (shape0 : List ℕ) (m : μ) :
    ∀ (n : ℕ) (d : List α),
      (swtLoop P ak aj ai n0 shape0 m n d).1
        = (rawLoop P ak aj ai n d).1.map (fun dec => dec.map
            (fun p => (p.1, Image.mk shape0 (npResize p.2 n0) m)))
    ∧ (swtLoop P ak aj ai n0 shape0 m n d).2
        = (rawLoop P ak aj ai n d).2 := by
  intro n
  induction n with
  | zero =>
    intro d
    exact ⟨rfl, rfl⟩
  | succ n ih =>
    intro d
    constructor
    · simp only [swtLoop, rawLoop, List.map_cons]
      rw [(ih _).1]
    · simp only [swtLoop, rawLoop]
      exact (ih _).2

theorem npResize_at3_eq {fl : List α} {dk dj di bigA : ℕ}
    (hlen : fl.length = bigA) (hle : dk * dj * di ≤ bigA)
    {k j i : ℕ} (hk : k < dk) (hj : j < dj) (hi : i < di) :
    at3 dj di (npResize fl (dk * dj * di)) k j i = at3 dj di fl k j i := by
  have hidx := index3_lt hk hj hi
  rw [at3, at3, npResize_getD hidx (by omega)]

/-- C1 counterexample: for the shape `(1, 2, 3)` input `[0,1,2,3,4,5]` (odd
j/i dimensions) with the identity-like length-preserving primitive, the
emitted `HHH` sample at index `(0, 1, 0)` is `3`, but the sample the
transform computed at `(0, 1, 0)` of the padded working volume is `4`:
trimming is not index-aligned with the padded working volume, refuting the
claim as stated. -/
theorem C1_counterexample :
    ((swt3 idP imgOdd 1 0).toOption.bind
        (fun r => (r.2.getD 0 []).lookup ("HHH"))).map
      (fun im => at3 2 3 im.flat 0 1 0) = some 3
  ∧ (((swtDec idP 2 2 4 (ndResize imgOdd.flat 16)).1.lookup ("HHH")).map
      (fun fl => at3 2 4 fl 0 1 0)) = some 4
  ∧ ((swt3 idP imgOdd 1 0).toOption.bind
        (fun r => (r.2.getD 0 []).lookup ("HHH"))).map
      (fun im => at3 2 3 im.flat 0 1 0)
      ≠ (((swtDec idP 2 2 4 (ndResize imgOdd.flat 16)).1.lookup ("HHH")).map
        (fun fl => at3 2 4 fl 0 1 0)) := by
  refine ⟨by decide, by decide, by decide⟩

/-- C1 (amended): each odd dimension of a 3D input is enlarged by exactly one
sample, making every working dimension even, but the fill is a zero tail
appended to the end of the flat C-order buffer (`ndarray.resize`), not a
per-axis margin; trimming truncates each computed volume's flat buffer back
to its first `dk*dj*di` entries (`numpy.resize`), so every emitted volume is
the flat-buffer prefix of the volume the transform computed; per-index
alignment `emitted(k,j,i) = computed(k,j,i)` holds whenever the two fastest
dimensions `dj` and `di` are even (padding confined to the slowest axis), and
fails in general otherwise. -/
theorem C1_flat_padding_and_trimming (P : List α → List α × List α)
    (img : Image α μ) (level start_level : ℕ)
    {dk dj di ak aj ai : ℕ} {d0 dW : List α}
    {raw : List (List (String × List α)) × List α}
    (himg : img.shape = [dk, dj, di])
    (hwf : img.flat.length = dk * dj * di)
    (hak : ak = adjustDim dk) (haj : aj = adjustDim dj)
    (hai : ai = adjustDim di)
    (hd0 : d0 = ndResize img.flat (ak * aj * ai))
    (hdW : dW = (swtStepLLL P ak aj ai)^[start_level] d0)
    (hraw : raw = rawLoop P ak aj ai level dW) :
    ((dk % 2 ≠ 0 → ak = dk + 1) ∧ (dk % 2 = 0 → ak = dk) ∧ 2 ∣ ak
      ∧ (dj % 2 ≠ 0 → aj = dj + 1) ∧ (dj % 2 = 0 → aj = dj) ∧ 2 ∣ aj
      ∧ (di % 2 ≠ 0 → ai = di + 1) ∧ (di % 2 = 0 → ai = di) ∧ 2 ∣ ai)
  ∧ d0 = img.flat ++ List.replicate (ak * aj * ai - dk * dj * di) 0
  ∧ swt3 P img level start_level = Except.ok
      (Image.mk img.shape (npResize raw.2 (dk * dj * di)) img.meta,
       raw.1.map (fun dec => dec.map (fun p =>
         (p.1, Image.mk img.shape (npResize p.2 (dk * dj * di)) img.meta))))
  ∧ (2 ∣ dj → 2 ∣ di →
      ∀ fl ∈ raw.2 :: (raw.1.map (fun dec => dec.map Prod.snd)).flatten,
        ∀ k j i, k < dk → j < dj → i < di →
          at3 dj di (npResize fl (dk * dj * di)) k j i = at3 aj ai fl k j i) := by
  subst hak haj hai hd0 hdW hraw
  have hprod : dk * dj * di ≤ adjustDim dk * adjustDim dj * adjustDim di :=
    Nat.mul_le_mul (Nat.mul_le_mul (adjustDim_ge dk) (adjustDim_ge dj))
      (adjustDim_ge di)
  refine ⟨?_, ?_, ?_, ?_⟩
  · exact ⟨fun h => adjustDim_odd h, fun h => adjustDim_of_even h,
      adjustDim_even dk, fun h => adjustDim_odd h, fun h => adjustDim_of_even h,
      adjustDim_even dj, fun h => adjustDim_odd h, fun h => adjustDim_of_even h,
      adjustDim_even di⟩
  · rw [ndResize_of_le (by omega), hwf]
  · rw [swt3_eq_ok P img level start_level himg]
    have he := swtLoop_eq_rawLoop P (adjustDim dk) (adjustDim dj)
      (adjustDim di) (dk * dj * di) img.shape img.meta level
      ((swtStepLLL P (adjustDim dk) (adjustDim dj)
          (adjustDim di))^[start_level]
        (ndResize img.flat (adjustDim dk * adjustDim dj * adjustDim di)))
    rw [he.1, he.2]
  · intro h2j h2i fl hfl k j i hk hj hi
    have hajdj : adjustDim dj = dj := adjustDim_of_even (by omega)
    have haidi : adjustDim di = di := adjustDim_of_even (by omega)
    rw [hajdj, haidi]
    have hdW : ((swtStepLLL P (adjustDim dk) (adjustDim dj)
        (adjustDim di))^[start_level]
          (ndResize img.flat
            (adjustDim dk * adjustDim dj * adjustDim di))).length
        = adjustDim dk * adjustDim dj * adjustDim di :=
      iterate_swtStepLLL_length P _ _ _ start_level _ (ndResize_length _ _)
    have hfl_len : fl.length = adjustDim dk * adjustDim dj * adjustDim di := by
      rcases List.mem_cons.1 hfl with rfl | hfl2
      · exact (rawLoop_lengths P _ _ _ level _ hdW).2
      · obtain ⟨g, hg, hflg⟩ := List.mem_flatten.1 hfl2
        obtain ⟨dec, hdec, rfl⟩ := List.mem_map.1 hg
        obtain ⟨p, hp, rfl⟩ := List.mem_map.1 hflg
        exact (rawLoop_lengths P _ _ _ level _ hdW).1 dec hdec p hp
    rw [hajdj, haidi] at hfl_len
    exact npResize_at3_eq hfl_len
      (by rw [hajdj, haidi] at hprod; exact hprod) hk hj hi

/-- Witness for the amended C1 at a concrete run on `imgKOdd` (shape
`(3, 2, 2)`: only the slowest dimension odd, so the alignment clause is
non-vacuous). -/
theorem C1_flat_padding_and_trimming_witness :
    imgKOdd.shape = [3, 2, 2]
  ∧ imgKOdd.flat.length = 3 * 2 * 2
  ∧ (((3 % 2 ≠ 0 → 4 = 3 + 1) ∧ (3 % 2 = 0 → 4 = 3) ∧ 2 ∣ 4
        ∧ (2 % 2 ≠ 0 → 2 = 2 + 1) ∧ (2 % 2 = 0 → 2 = 2) ∧ 2 ∣ 2
        ∧ (2 % 2 ≠ 0 → 2 = 2 + 1) ∧ (2 % 2 = 0 → 2 = 2) ∧ 2 ∣ 2)
      ∧ ndResize imgKOdd.flat (4 * 2 * 2)
          = imgKOdd.flat ++ List.replicate (4 * 2 * 2 - 3 * 2 * 2) 0
      ∧ swt3 idP imgKOdd 1 0 = Except.ok
          (Image.mk imgKOdd.shape
            (npResize (rawLoop idP 4 2 2 1
                (ndResize imgKOdd.flat (4 * 2 * 2))).2 (3 * 2 * 2))
            imgKOdd.meta,
           (rawLoop idP 4 2 2 1
              (ndResize imgKOdd.flat (4 * 2 * 2))).1.map
            (fun dec => dec.map (fun p =>
              (p.1, Image.mk imgKOdd.shape
                (npResize p.2 (3 * 2 * 2)) imgKOdd.meta))))
      ∧ (2 ∣ 2 → 2 ∣ 2 →
          ∀ fl ∈ (rawLoop idP 4 2 2 1
                (ndResize imgKOdd.flat (4 * 2 * 2))).2 ::
              ((rawLoop idP 4 2 2 1
                  (ndResize imgKOdd.flat (4 * 2 * 2))).1.map
                (fun dec => dec.map Prod.snd)).flatten,
            ∀ k j i, k < 3 → j < 2 → i < 2 →
              at3 2 2 (npResize fl (3 * 2 * 2)) k j i = at3 2 2 fl k j i)) :=
  ⟨rfl, rfl, C1_flat_padding_and_trimming idP imgKOdd 1 0 rfl rfl rfl rfl rfl
    rfl rfl rfl⟩

end Radiomics
